import Mathlib

/-!
Shallow embedding of the SMZ (Secure Memory Zone) CSR configuration layer
(`src/smz_csr.h`) and of the end-to-end verification harness
(`src/firmware/smz_test.c`).

The three control registers BASE, SIZE and ENABLE are modelled as a record
of 32-bit values (`Nat` reduced mod 2^32 on write); a read returns the last
value written.  Every register access performed by the C code is also logged
as an event, so that ordering claims about side effects can be stated as
facts about the emitted trace.
-/

namespace SMZ

/-- The three SMZ control registers (CSR 0x200, 0x201, 0x202). -/
inductive Reg
  | BASE
  | SIZE
  | ENABLE
  deriving DecidableEq, Repr

/-- Register file: last value written to each of the three CSRs. -/
structure SMZState where
  base : Nat
  size : Nat
  enable : Nat
  deriving DecidableEq, Repr

/-- One observable side effect of the configuration code: a CSR write, or
the busy-wait settle delay. -/
inductive Event
  | writeReg (r : Reg) (v : Nat)
  | settle
  deriving DecidableEq, Repr

/-- Machine: the register file together with the trace of events emitted
so far (in program order). -/
structure Machine where
  st : SMZState
  log : List Event
  deriving DecidableEq, Repr

/-- Store a 32-bit value into one register of the register file. -/
def setReg (s : SMZState) (r : Reg) (v : Nat) : SMZState :=
  match r with
  | Reg.BASE => { s with base := v % 2 ^ 32 }
  | Reg.SIZE => { s with size := v % 2 ^ 32 }
  | Reg.ENABLE => { s with enable := v % 2 ^ 32 }

/-- Value of one register of the register file. -/
def getReg (s : SMZState) (r : Reg) : Nat :=
  match r with
  | Reg.BASE => s.base
  | Reg.SIZE => s.size
  | Reg.ENABLE => s.enable

/-- `write_csr`: issue a CSR write (macro `write_csr` / `csrrw`).  Updates
the register and appends the write to the trace. -/
def write_csr (m : Machine) (r : Reg) (v : Nat) : Machine :=
  { st := setReg m.st r v, log := m.log ++ [Event.writeReg r v] }

/-- `read_csr`: a CSR read returns the last value durably written
(register-interface contract of the spec). -/
def read_csr (m : Machine) (r : Reg) : Nat :=
  getReg m.st r

/-- Macro `smz_read_base`. -/
def smz_read_base (m : Machine) : Nat := read_csr m Reg.BASE

/-- Macro `smz_read_size`. -/
def smz_read_size (m : Machine) : Nat := read_csr m Reg.SIZE

/-- Macro `smz_is_enabled`: `read_csr(CSR_SMZ_ENABLE) & 1`. -/
def smz_is_enabled (m : Machine) : Nat := read_csr m Reg.ENABLE &&& 1

/-- Macro `smz_disable`: `write_csr(CSR_SMZ_ENABLE, 0)`. -/
def smz_disable (m : Machine) : Machine := write_csr m Reg.ENABLE 0

/-- Macro `smz_enable`: `write_csr(CSR_SMZ_ENABLE, 1)`. -/
def smz_enable (m : Machine) : Machine := write_csr m Reg.ENABLE 1

/-- The busy-wait settle delay (`volatile int delay = 10; while (delay--);`):
no register change, one `settle` event in the trace. -/
def settleWait (m : Machine) : Machine :=
  { m with log := m.log ++ [Event.settle] }

/-- `smz_init(base, size, enable)` from `src/smz_csr.h`.  The C `int enable`
parameter is only ever tested for truthiness, so it is modelled as `Bool`.
Returns the C `int` result (0 success, -1 validation error) and the
resulting machine. -/
def smz_init (m : Machine) (base size : Nat) (enable : Bool) : Int × Machine :=
  if base &&& 0x3 ≠ 0 then (-1, m)
  else if size &&& (size - 1) ≠ 0 ∨ size = 0 then (-1, m)
  else
    let m1 := smz_disable m
    let m2 := settleWait m1
    let m3 := write_csr m2 Reg.BASE base
    let m4 := write_csr m3 Reg.SIZE size
    let m5 := if enable then smz_enable m4 else m4
    (0, m5)

/-- `smz_reconfigure(base, size)` from `src/smz_csr.h`. -/
def smz_reconfigure (m : Machine) (base size : Nat) : Int × Machine :=
  if base &&& 0x3 ≠ 0 ∨ size &&& (size - 1) ≠ 0 ∨ size = 0 then (-1, m)
  else
    let was_enabled := smz_is_enabled m
    let m1 := smz_disable m
    let m2 := settleWait m1
    let m3 := write_csr m2 Reg.BASE base
    let m4 := write_csr m3 Reg.SIZE size
    let m5 := if was_enabled ≠ 0 then smz_enable m4 else m4
    (0, m5)

/-- `smz_get_config(base, size, enable)` from `src/smz_csr.h`.  The three
output pointers are modelled as `Option Nat` addresses into a caller store
(`none` = NULL); the function returns the updated store.  Each non-NULL
pointer is written in the order of the C body: base, then size, then
enable (the latter masked to its low bit by `smz_is_enabled`). -/
def smz_get_config (m : Machine) (store : Nat → Nat)
    (basep sizep enablep : Option Nat) : Nat → Nat :=
  let s1 := match basep with
    | some a => Function.update store a (smz_read_base m)
    | none => store
  let s2 := match sizep with
    | some a => Function.update s1 a (smz_read_size m)
    | none => s1
  match enablep with
  | some a => Function.update s2 a (smz_is_enabled m)
  | none => s2

/-! Verification harness, `src/firmware/smz_test.c`. -/

/-- `SECURE_ADDR` from `smz_test.c`. -/
def SECURE_ADDR : Nat := 0x10000

/-- `SECURE_SIZE` from `smz_test.c`. -/
def SECURE_SIZE : Nat := 0x1000

/-- STEP 1 of `smz_test`: the harness configures the SMZ CSRs by three
direct `write_csr` calls (BASE, then SIZE, then ENABLE := 1). -/
def smz_test_config (m : Machine) : Machine :=
  let m1 := write_csr m Reg.BASE SECURE_ADDR
  let m2 := write_csr m1 Reg.SIZE SECURE_SIZE
  write_csr m2 Reg.ENABLE 1

/-- STEP 2 of `smz_test`: test pattern word `i`,
`(0xAA << 24) | (0xBB << 16) | ((i & 0xFF) << 8) | (i & 0xFF)`. -/
def test_image (i : Nat) : Nat :=
  (0xAA <<< 24) ||| (0xBB <<< 16) ||| ((i &&& 0xFF) <<< 8) ||| (i &&& 0xFF)

/-- The generated pattern as a list: 196 words, word `i` = `test_image i`. -/
def genImage : List Nat :=
  (List.range 196).map test_image

/-- STEP 3 of `smz_test`: write the 196 pattern words to the secure
window.  Memory is modelled word-indexed relative to `SECURE_ADDR`
(`secure_mem[i]`); writing stores the last written value. -/
def writeWindow (mem : Nat → Nat) : Nat → Nat :=
  (List.range 196).foldl (fun mm i => Function.update mm i (test_image i)) mem

/-- One iteration of the STEP 5 comparison loop of `smz_test`: accumulator
is `(matches, first_mismatch)` with `first_mismatch = -1` for "none yet". -/
def verifyStep (test rd : Nat → Nat) (acc : Nat × Int) (i : Nat) : Nat × Int :=
  if rd i = test i then (acc.1 + 1, acc.2)
  else if acc.2 = -1 then (acc.1, (i : Int))
  else acc

/-- STEP 5 of `smz_test`: compare `read_image` against `test_image` over
indices `0 .. n-1`, starting from `matches = 0`, `first_mismatch = -1`. -/
def verify (test rd : Nat → Nat) (n : Nat) : Nat × Int :=
  (List.range n).foldl (verifyStep test rd) (0, -1)

/-- The harness's final verdict: it prints the PASS banner exactly when
`matches == 196`. -/
def verdictPass (cnt : Nat) : Bool :=
  cnt == 196

/-! Power-of-two characterisation of the C validation test
`(size & (size - 1)) != 0 || size == 0`. -/

/-- The spec-level notion "size is a power of two". -/
def isPow2 (n : Nat) : Prop :=
  ∃ k, n = 2 ^ k

/-- A power of two passes the `size & (size - 1)` test. -/
theorem pow2_land_pred_eq_zero (k : Nat) : (2 ^ k) &&& (2 ^ k - 1) = 0 := by
  apply Nat.eq_of_testBit_eq
  intro i
  rw [Nat.testBit_land, Nat.testBit_two_pow, Nat.testBit_two_pow_sub_one,
    Nat.zero_testBit]
  by_cases h : k = i
  · subst h; simp
  · simp [h]

/-- A bit in the unique block `2^k ≤ x < 2^(k+1)` is set. -/
theorem testBit_true_of_between (x k : Nat) (h1 : 2 ^ k ≤ x)
    (h2 : x < 2 ^ (k + 1)) : x.testBit k = true := by
  rw [Nat.testBit_to_div_mod]
  have hdiv : x / 2 ^ k = 1 := by
    apply Nat.div_eq_of_lt_le (by simpa using h1)
    simpa [Nat.pow_succ, Nat.mul_comm] using h2
  simp [hdiv]

/-- A nonzero value passing the `size & (size - 1)` test is a power of
two. -/
theorem pow2_of_land_pred_eq_zero (n : Nat) (hn : n ≠ 0)
    (h : n &&& (n - 1) = 0) : isPow2 n := by
  refine ⟨n.log2, ?_⟩
  have hle : 2 ^ n.log2 ≤ n := Nat.log2_self_le hn
  have hlt : n < 2 ^ (n.log2 + 1) := Nat.lt_log2_self
  by_contra hne
  have hgt : 2 ^ n.log2 < n := lt_of_le_of_ne hle (fun hh => hne hh.symm)
  have h1 : (n - 1).testBit n.log2 = true := by
    apply testBit_true_of_between
    · omega
    · omega
  have h2 : n.testBit n.log2 = true := testBit_true_of_between n n.log2 hle hlt
  have : (n &&& (n - 1)).testBit n.log2 = true := by
    rw [Nat.testBit_land, h1, h2]
    rfl
  rw [h, Nat.zero_testBit] at this
  exact Bool.false_ne_true this

/-- The C test characterised: for `n ≠ 0`,
`n & (n-1) = 0` iff `n` is a power of two. -/
theorem land_pred_eq_zero_iff (n : Nat) (hn : n ≠ 0) :
    n &&& (n - 1) = 0 ↔ isPow2 n := by
  constructor
  · exact pow2_of_land_pred_eq_zero n hn
  · rintro ⟨k, rfl⟩
    exact pow2_land_pred_eq_zero k

/-- The C alignment test characterised: `n & 3 = n % 4`. -/
theorem land_three_eq_mod_four (n : Nat) : n &&& 3 = n % 4 := by
  simpa using Nat.and_pow_two_sub_one_eq_mod n 2

/-- A reset machine: all three registers zero, empty trace. -/
def mach0 : Machine :=
  ⟨⟨0, 0, 0⟩, []⟩

/-- A spec-level invalid input fails the C validation tests. -/
theorem code_invalid_of_spec_invalid (base size : Nat)
    (h : base % 4 ≠ 0 ∨ size = 0 ∨ ¬ isPow2 size) :
    base &&& 0x3 ≠ 0 ∨ (size &&& (size - 1) ≠ 0 ∨ size = 0) := by
  rcases h with h | h | h
  · left
    rw [land_three_eq_mod_four]
    exact h
  · right; right; exact h
  · by_cases hz : size = 0
    · right; right; exact hz
    · right; left
      intro hl
      exact h (pow2_of_land_pred_eq_zero size hz hl)

/-- `smz_init` on an input failing the C validation tests: error, machine
untouched. -/
theorem smz_init_invalid_eval (m : Machine) (b s : Nat) (e : Bool)
    (h : b &&& 0x3 ≠ 0 ∨ (s &&& (s - 1) ≠ 0 ∨ s = 0)) :
    smz_init m b s e = (-1, m) := by
  unfold smz_init
  rcases h with h | h
  · rw [if_pos h]
  · by_cases hb : b &&& 0x3 ≠ 0
    · rw [if_pos hb]
    · rw [if_neg hb, if_pos h]

/-- `smz_reconfigure` on an input failing the C validation tests: error,
machine untouched. -/
theorem smz_reconfigure_invalid_eval (m : Machine) (b s : Nat)
    (h : b &&& 0x3 ≠ 0 ∨ (s &&& (s - 1) ≠ 0 ∨ s = 0)) :
    smz_reconfigure m b s = (-1, m) := by
  unfold smz_reconfigure
  rcases h with h | h
  · rw [if_pos (Or.inl h)]
  · rw [if_pos (Or.inr h)]

/-- `smz_init` on an input passing the C validation tests: success, and
the exact resulting registers and event trace. -/
theorem smz_init_valid_eval (m : Machine) (b s : Nat) (e : Bool)
    (hb : b &&& 0x3 = 0) (hs : s &&& (s - 1) = 0) (hs0 : s ≠ 0) :
    smz_init m b s e =
      (0, { st := { base := b % 2 ^ 32, size := s % 2 ^ 32,
                    enable := if e then 1 else 0 },
            log := m.log ++ [Event.writeReg Reg.ENABLE 0, Event.settle,
                Event.writeReg Reg.BASE b, Event.writeReg Reg.SIZE s] ++
              (if e then [Event.writeReg Reg.ENABLE 1] else []) }) := by
  have h1 : (1 : Nat) % 2 ^ 32 = 1 := by norm_num
  unfold smz_init
  rw [if_neg (by simp [hb]), if_neg (by simp [hs, hs0])]
  cases e <;>
    simp [smz_disable, smz_enable, settleWait, write_csr, setReg, h1,
      List.append_assoc]

/-- `smz_reconfigure` on an input passing the C validation tests: success,
the exact resulting registers (the enable register holding the previously
observed low bit) and event trace. -/
theorem smz_reconfigure_valid_eval (m : Machine) (b s : Nat)
    (hb : b &&& 0x3 = 0) (hs : s &&& (s - 1) = 0) (hs0 : s ≠ 0) :
    smz_reconfigure m b s =
      (0, { st := { base := b % 2 ^ 32, size := s % 2 ^ 32,
                    enable := if m.st.enable &&& 1 ≠ 0 then 1 else 0 },
            log := m.log ++ [Event.writeReg Reg.ENABLE 0, Event.settle,
                Event.writeReg Reg.BASE b, Event.writeReg Reg.SIZE s] ++
              (if m.st.enable &&& 1 ≠ 0 then [Event.writeReg Reg.ENABLE 1]
               else []) }) := by
  have h1 : (1 : Nat) % 2 ^ 32 = 1 := by norm_num
  unfold smz_reconfigure
  rw [if_neg (by simp [hb, hs, hs0])]
  rcases Nat.mod_two_eq_zero_or_one m.st.enable with he | he <;>
    simp [smz_is_enabled, read_csr, getReg, Nat.and_one_is_mod, he,
      smz_disable, smz_enable, settleWait, write_csr, setReg, h1,
      List.append_assoc]

/-- C1: for every base with `base mod 4 ≠ 0`, and for every size that is 0
or not a power of two, both `smz_init(base, size, enable)` and
`smz_reconfigure(base, size)` return the validation error (-1) and perform
no register write: the whole machine — BASE, SIZE and ENABLE registers and
the event trace — is unchanged on the error path. -/
theorem init_reconfigure_reject_invalid (m : Machine) (base size : Nat)
    (enable : Bool) (h : base % 4 ≠ 0 ∨ size = 0 ∨ ¬ isPow2 size) :
    smz_init m base size enable = (-1, m) ∧
    smz_reconfigure m base size = (-1, m) := by
  have hc := code_invalid_of_spec_invalid base size h
  exact ⟨smz_init_invalid_eval m base size enable hc,
    smz_reconfigure_invalid_eval m base size hc⟩

/-- Witness for C1 at base = 2 (misaligned), size = 4, enable = true. -/
theorem init_reconfigure_reject_invalid_witness :
    ((2 : Nat) % 4 ≠ 0 ∨ (4 : Nat) = 0 ∨ ¬ isPow2 4) ∧
    (smz_init mach0 2 4 true = (-1, mach0) ∧
     smz_reconfigure mach0 2 4 = (-1, mach0)) :=
  ⟨Or.inl (by decide),
    init_reconfigure_reject_invalid mach0 2 4 true (Or.inl (by decide))⟩

/-- Counterexample for C6: an alignment violation (base 2, size 4) and a
size violation (base 0, size 3) produce the very same return value -1, in
both `smz_init` and `smz_reconfigure`; no distinct error kinds exist. -/
theorem validation_errors_indistinguishable :
    (smz_init mach0 2 4 false).1 = -1 ∧
    (smz_init mach0 0 3 false).1 = -1 ∧
    (smz_init mach0 2 4 false).1 = (smz_init mach0 0 3 false).1 ∧
    (smz_reconfigure mach0 2 4).1 = -1 ∧
    (smz_reconfigure mach0 0 3).1 = -1 ∧
    (smz_reconfigure mach0 2 4).1 = (smz_reconfigure mach0 0 3).1 := by
  decide

/-- C6 (amended): `smz_init` and `smz_reconfigure` signal every validation
failure — misaligned base as well as zero or non-power-of-two size — with
the one error value -1; the return value does not tell the caller which
rule was violated. -/
theorem init_reconfigure_single_error_value (m : Machine) (base size : Nat)
    (enable : Bool) (h : base % 4 ≠ 0 ∨ size = 0 ∨ ¬ isPow2 size) :
    (smz_init m base size enable).1 = -1 ∧
    (smz_reconfigure m base size).1 = -1 := by
  have hc := code_invalid_of_spec_invalid base size h
  rw [smz_init_invalid_eval m base size enable hc,
    smz_reconfigure_invalid_eval m base size hc]
  exact ⟨rfl, rfl⟩

/-- Witness for the amended C6 at base = 1 (misaligned), size = 8. -/
theorem init_reconfigure_single_error_value_witness :
    ((1 : Nat) % 4 ≠ 0 ∨ (8 : Nat) = 0 ∨ ¬ isPow2 8) ∧
    ((smz_init mach0 1 8 false).1 = -1 ∧ (smz_reconfigure mach0 1 8).1 = -1) :=
  ⟨Or.inl (by decide),
    init_reconfigure_single_error_value mach0 1 8 false (Or.inl (by decide))⟩

/-- C2: for every word-aligned base and power-of-two size (both 32-bit) and
either enable value, `smz_init` succeeds, and a subsequent `smz_get_config`
through three distinct non-NULL pointers returns exactly that base, that
size, and that enable value (1 for true, 0 for false), under the register
model where a read returns the last value written. -/
theorem init_then_get_config (m : Machine) (base size : Nat) (enable : Bool)
    (hb : base % 4 = 0) (hbl : base < 2 ^ 32) (hs : isPow2 size)
    (hsl : size < 2 ^ 32) :
    (smz_init m base size enable).1 = 0 ∧
    ∀ (store : Nat → Nat) (a b c : Nat), a ≠ b → a ≠ c → b ≠ c →
      smz_get_config (smz_init m base size enable).2 store
          (some a) (some b) (some c) a = base ∧
      smz_get_config (smz_init m base size enable).2 store
          (some a) (some b) (some c) b = size ∧
      smz_get_config (smz_init m base size enable).2 store
          (some a) (some b) (some c) c = (if enable then 1 else 0) := by
  have hcb : base &&& 0x3 = 0 := by
    rw [land_three_eq_mod_four]; exact hb
  obtain ⟨k, rfl⟩ := hs
  have hcs : (2 ^ k) &&& (2 ^ k - 1) = 0 := pow2_land_pred_eq_zero k
  have hs0 : (2 : Nat) ^ k ≠ 0 := (Nat.pos_pow_of_pos k (by norm_num)).ne'
  rw [smz_init_valid_eval m base (2 ^ k) enable hcb hcs hs0]
  refine ⟨rfl, ?_⟩
  intro store a b c hab hac hbc
  simp only [smz_get_config, smz_read_base, smz_read_size, smz_is_enabled,
    read_csr, getReg]
  refine ⟨?_, ?_, ?_⟩
  · rw [Function.update_noteq hac, Function.update_noteq hab,
      Function.update_same]
    exact Nat.mod_eq_of_lt hbl
  · rw [Function.update_noteq hbc, Function.update_same]
    exact Nat.mod_eq_of_lt hsl
  · rw [Function.update_same]
    cases enable <;> rfl

/-- Witness for C2 at base = 0x10000, size = 0x1000, enable = true,
read back through pointers 0, 1, 2. -/
theorem init_then_get_config_witness :
    (65536 : Nat) % 4 = 0 ∧ isPow2 4096 ∧
    (smz_get_config (smz_init mach0 65536 4096 true).2 (fun _ => 0)
        (some 0) (some 1) (some 2) 0 = 65536 ∧
     smz_get_config (smz_init mach0 65536 4096 true).2 (fun _ => 0)
        (some 0) (some 1) (some 2) 1 = 4096 ∧
     smz_get_config (smz_init mach0 65536 4096 true).2 (fun _ => 0)
        (some 0) (some 1) (some 2) 2 = (if true then 1 else 0)) :=
  ⟨by decide, ⟨12, by decide⟩,
    (init_then_get_config mach0 65536 4096 true (by decide) (by decide)
        ⟨12, by decide⟩ (by decide)).2
      (fun _ => 0) 0 1 2 (by decide) (by decide) (by decide)⟩

/-- C3: for every valid new base and size and every starting content of the
enable register, `smz_reconfigure` leaves the observed enabled state
(`smz_is_enabled`, the register's low bit) exactly as it found it. -/
theorem reconfigure_preserves_enable (m : Machine) (base size : Nat)
    (hb : base % 4 = 0) (hs : isPow2 size) :
    smz_is_enabled (smz_reconfigure m base size).2 = smz_is_enabled m := by
  have hcb : base &&& 0x3 = 0 := by
    rw [land_three_eq_mod_four]; exact hb
  obtain ⟨k, rfl⟩ := hs
  have hcs : (2 ^ k) &&& (2 ^ k - 1) = 0 := pow2_land_pred_eq_zero k
  have hs0 : (2 : Nat) ^ k ≠ 0 := (Nat.pos_pow_of_pos k (by norm_num)).ne'
  rw [smz_reconfigure_valid_eval m base (2 ^ k) hcb hcs hs0]
  simp only [smz_is_enabled, read_csr, getReg, Nat.and_one_is_mod]
  rcases Nat.mod_two_eq_zero_or_one m.st.enable with he | he <;> simp [he]

/-- Witness for C3: a machine whose enable register holds 1, reconfigured
to base 4, size 16, stays enabled. -/
theorem reconfigure_preserves_enable_witness :
    (4 : Nat) % 4 = 0 ∧ isPow2 16 ∧
    smz_is_enabled (smz_reconfigure ⟨⟨0, 0, 1⟩, []⟩ 4 16).2 =
      smz_is_enabled ⟨⟨0, 0, 1⟩, []⟩ :=
  ⟨by decide, ⟨4, by decide⟩,
    reconfigure_preserves_enable ⟨⟨0, 0, 1⟩, []⟩ 4 16 (by decide)
      ⟨4, by decide⟩⟩

/-- C4: on every successful run of `smz_init`, the emitted side effects
are, in program order: the write of 0 to ENABLE (disable) first, then the
settle wait, then the write of base to BASE, then the write of size to
SIZE, and a final write of 1 to ENABLE exactly when enable was requested;
in particular no BASE or SIZE write precedes the disable. -/
theorem init_success_write_order (m : Machine) (base size : Nat)
    (enable : Bool) (h : (smz_init m base size enable).1 = 0) :
    (smz_init m base size enable).2.log =
      m.log ++ [Event.writeReg Reg.ENABLE 0, Event.settle,
        Event.writeReg Reg.BASE base, Event.writeReg Reg.SIZE size] ++
      (if enable then [Event.writeReg Reg.ENABLE 1] else []) := by
  by_cases hb : base &&& 0x3 ≠ 0
  · rw [smz_init_invalid_eval m base size enable (Or.inl hb)] at h
    simp at h
  · by_cases hs : size &&& (size - 1) ≠ 0 ∨ size = 0
    · rw [smz_init_invalid_eval m base size enable (Or.inr hs)] at h
      simp at h
    · push_neg at hb hs
      rw [smz_init_valid_eval m base size enable hb hs.1 hs.2]

/-- Witness for C4 at base = 0x10000, size = 0x1000, enable = true. -/
theorem init_success_write_order_witness :
    (smz_init mach0 65536 4096 true).1 = 0 ∧
    (smz_init mach0 65536 4096 true).2.log =
      mach0.log ++ [Event.writeReg Reg.ENABLE 0, Event.settle,
        Event.writeReg Reg.BASE 65536, Event.writeReg Reg.SIZE 4096] ++
      (if true then [Event.writeReg Reg.ENABLE 1] else []) :=
  ⟨by decide, init_success_write_order mach0 65536 4096 true (by decide)⟩

/-- Counterexample for C5: the harness's STEP 1 emits three direct CSR
writes (BASE, SIZE, ENABLE := 1) with no prior disable and no settle, so
its effect differs from a call to `smz_init` with the very parameters the
harness uses; the harness does not configure through `smz_init`. -/
theorem smz_test_config_not_init :
    (smz_test_config mach0).log =
      [Event.writeReg Reg.BASE 65536, Event.writeReg Reg.SIZE 4096,
       Event.writeReg Reg.ENABLE 1] ∧
    smz_test_config mach0 ≠ (smz_init mach0 SECURE_ADDR SECURE_SIZE true).2 := by
  decide

/-- C5 (amended): the harness configures its secure region by writing the
BASE, SIZE and ENABLE registers directly — BASE := 0x10000, SIZE := 0x1000,
ENABLE := 1, in that order — bypassing `smz_init` and its validation, and
it has no abort path: the configuration step always completes. -/
theorem smz_test_config_direct_writes (m : Machine) :
    smz_test_config m =
      { st := { base := 65536, size := 4096, enable := 1 },
        log := m.log ++ [Event.writeReg Reg.BASE SECURE_ADDR,
          Event.writeReg Reg.SIZE SECURE_SIZE,
          Event.writeReg Reg.ENABLE 1] } := by
  norm_num [smz_test_config, write_csr, setReg, SECURE_ADDR, SECURE_SIZE,
    List.append_assoc]

/-- C7: the generated test pattern is a pure function of the word index
with fixed length 196, and word `i` equals
`0xAABB0000 | ((i & 0xFF) << 8) | (i & 0xFF)`. -/
theorem genImage_pattern :
    genImage.length = 196 ∧
    ∀ i, i < 196 →
      genImage.getD i 0 = 0xAABB0000 ||| ((i &&& 0xFF) <<< 8) ||| (i &&& 0xFF) := by
  constructor
  · simp [genImage]
  · intro i hi
    rw [genImage, List.getD_eq_getElem?_getD, List.getElem?_map,
      List.getElem?_range hi]
    have hAB : ((0xAA : Nat) <<< 24) ||| (0xBB <<< 16) = 0xAABB0000 := by
      decide
    simp only [Option.map_some', Option.getD_some, test_image, hAB]

/-- Witness for C7 at word index 3: 0xAABB0303. -/
theorem genImage_pattern_witness :
    3 < 196 ∧
    genImage.getD 3 0 = 0xAABB0000 ||| ((3 &&& 0xFF) <<< 8) ||| (3 &&& 0xFF) :=
  ⟨by decide, genImage_pattern.2 3 (by decide)⟩

/-- Reading the window after the STEP 3 write loop returns the pattern
word at every index below the loop bound (last-write-wins memory). -/
theorem foldl_update_read (mem : Nat → Nat) :
    ∀ (n i : Nat), i < n →
      (List.range n).foldl
        (fun mm j => Function.update mm j (test_image j)) mem i =
      test_image i := by
  intro n
  induction n with
  | zero => intro i hi; omega
  | succ n ih =>
    intro i hi
    rw [List.range_succ, List.foldl_append, List.foldl_cons, List.foldl_nil]
    by_cases h : i = n
    · subst h
      rw [Function.update_same]
    · rw [Function.update_noteq h]
      exact ih i (by omega)

/-- `writeWindow` specialisation of `foldl_update_read`. -/
theorem writeWindow_read (mem : Nat → Nat) (i : Nat) (hi : i < 196) :
    writeWindow mem i = test_image i := by
  unfold writeWindow
  exact foldl_update_read mem 196 i hi

/-- The STEP 5 loop over a stretch of indices that all match: every
iteration increments `matches` and leaves `first_mismatch` alone. -/
theorem verifyStep_foldl_all_match (test rd : Nat → Nat) :
    ∀ (l : List Nat), (∀ i ∈ l, rd i = test i) → ∀ (a : Nat) (f : Int),
      l.foldl (verifyStep test rd) (a, f) = (a + l.length, f) := by
  intro l
  induction l with
  | nil => intro h a f; simp
  | cons x xs ih =>
    intro h a f
    rw [List.foldl_cons]
    have hx : rd x = test x := h x (List.mem_cons_self x xs)
    have hstep : verifyStep test rd (a, f) x = (a + 1, f) := by
      simp [verifyStep, hx]
    rw [hstep, ih (fun i hi => h i (List.mem_cons_of_mem x hi)) (a + 1) f]
    simp only [List.length_cons, Prod.mk.injEq]
    exact ⟨by omega, trivial⟩

/-- C8: writing all 196 pattern words through an identity (non-corrupting)
memory model and reading them back yields `matches = 196` and
`first_mismatch = -1` (none), and the harness prints the PASS banner
exactly when `matches = 196`. -/
theorem roundtrip_identity :
    (∀ mem : Nat → Nat,
      verify test_image (writeWindow mem) 196 = (196, -1)) ∧
    ∀ cnt : Nat, verdictPass cnt = true ↔ cnt = 196 := by
  constructor
  · intro mem
    unfold verify
    have hall : ∀ i ∈ List.range 196, writeWindow mem i = test_image i := by
      intro i hi
      exact writeWindow_read mem i (List.mem_range.mp hi)
    rw [verifyStep_foldl_all_match test_image (writeWindow mem)
      (List.range 196) hall 0 (-1)]
    simp
  · intro cnt
    simp [verdictPass]

/-- The STEP 5 loop when exactly one index `k` mismatches: every other
index adds a match, and `first_mismatch` records `k`. -/
theorem verify_single_mismatch (test rd : Nat → Nat) (k n : Nat)
    (hk : k < n) (hne : rd k ≠ test k)
    (hmatch : ∀ i, i < n → i ≠ k → rd i = test i) :
    verify test rd n = (n - 1, (k : Int)) := by
  unfold verify
  rw [List.range_eq_range']
  have h1 : (n - k) + k = n := by omega
  have hsplit := List.range'_append 0 k (n - k) 1
  rw [h1] at hsplit
  simp only [Nat.zero_add, Nat.one_mul] at hsplit
  rw [← hsplit, List.foldl_append]
  have hfirst : (List.range' 0 k).foldl (verifyStep test rd) (0, -1) =
      (k, -1) := by
    have hall : ∀ i ∈ List.range' 0 k, rd i = test i := by
      intro i hi
      have hmem := List.mem_range'_1.mp hi
      exact hmatch i (by omega) (by omega)
    rw [verifyStep_foldl_all_match test rd (List.range' 0 k) hall 0 (-1)]
    simp [List.length_range']
  rw [hfirst]
  have h2 : n - k = (n - k - 1) + 1 := by omega
  rw [h2, List.range'_succ, List.foldl_cons]
  have hstep : verifyStep test rd (k, -1) k = (k, (k : Int)) := by
    simp [verifyStep, hne]
  rw [hstep]
  have hrest : ∀ i ∈ List.range' (k + 1) (n - k - 1), rd i = test i := by
    intro i hi
    have hmem := List.mem_range'_1.mp hi
    exact hmatch i (by omega) (by omega)
  rw [verifyStep_foldl_all_match test rd (List.range' (k + 1) (n - k - 1))
    hrest k ((k : Nat) : Int)]
  simp only [List.length_range', Prod.mk.injEq]
  exact ⟨by omega, trivial⟩

/-- C9: if the read-back data differs from the pattern at exactly index
`k` and matches everywhere else, the comparison yields
`matches = 196 - 1 = 195` and `first_mismatch = k`, and at that index the
expected value reported is the pattern word `test_image k` while the
actual value reported is the corrupted read-back word `c`. -/
theorem single_corruption_report (k : Nat) (hk : k < 196) (c : Nat)
    (hc : c ≠ test_image k) :
    verify test_image (Function.update test_image k c) 196 =
      (195, (k : Int)) ∧
    Function.update test_image k c k = c := by
  have hne : Function.update test_image k c k ≠ test_image k := by
    rw [Function.update_same]
    exact hc
  have hmatch : ∀ i, i < 196 → i ≠ k →
      Function.update test_image k c i = test_image i := by
    intro i hi hik
    rw [Function.update_noteq hik]
  have hv := verify_single_mismatch test_image
    (Function.update test_image k c) k 196 hk hne hmatch
  have h196 : (196 : Nat) - 1 = 195 := by norm_num
  rw [h196] at hv
  exact ⟨hv, Function.update_same k c test_image⟩

/-- Witness for C9: corrupting word 5 to 0 gives 195 matches, first
mismatch 5. -/
theorem single_corruption_report_witness :
    5 < 196 ∧ (0 : Nat) ≠ test_image 5 ∧
    (verify test_image (Function.update test_image 5 0) 196 =
      (195, (5 : Int)) ∧
     Function.update test_image 5 0 5 = 0) :=
  ⟨by decide, by decide, single_corruption_report 5 (by decide) 0 (by decide)⟩

/-- Pointwise behaviour of `smz_get_config` on the caller's store. -/
theorem get_config_pointwise (m : Machine) (store : Nat → Nat)
    (bp sp ep : Option Nat) (a : Nat) :
    smz_get_config m store bp sp ep a =
      if some a = ep then smz_is_enabled m
      else if some a = sp then smz_read_size m
      else if some a = bp then smz_read_base m
      else store a := by
  rcases bp with _ | x <;> rcases sp with _ | y <;> rcases ep with _ | z <;>
    simp only [smz_get_config, Function.update_apply, Option.some.injEq] <;>
    split_ifs <;> simp_all

/-- C10: `smz_get_config` tolerates NULL output pointers: for every
combination of NULL and non-NULL base, size and enable pointers it writes
through exactly the non-NULL ones — each receiving the corresponding
register value, enable masked to its low bit — and leaves every other
store location untouched (no access ever happens through a NULL
pointer). -/
theorem get_config_null_safe (m : Machine) (store : Nat → Nat)
    (bp sp ep : Option Nat) :
    (∀ a, bp ≠ some a → sp ≠ some a → ep ≠ some a →
      smz_get_config m store bp sp ep a = store a) ∧
    (∀ a, bp = some a → sp ≠ some a → ep ≠ some a →
      smz_get_config m store bp sp ep a = smz_read_base m) ∧
    (∀ a, sp = some a → ep ≠ some a →
      smz_get_config m store bp sp ep a = smz_read_size m) ∧
    (∀ a, ep = some a →
      smz_get_config m store bp sp ep a = smz_is_enabled m) := by
  refine ⟨?_, ?_, ?_, ?_⟩
  · intro a h1 h2 h3
    rw [get_config_pointwise, if_neg (fun hh => h3 hh.symm),
      if_neg (fun hh => h2 hh.symm), if_neg (fun hh => h1 hh.symm)]
  · intro a h1 h2 h3
    rw [get_config_pointwise, if_neg (fun hh => h3 hh.symm),
      if_neg (fun hh => h2 hh.symm), if_pos h1.symm]
  · intro a h1 h2
    rw [get_config_pointwise, if_neg (fun hh => h2 hh.symm), if_pos h1.symm]
  · intro a h1
    rw [get_config_pointwise, if_pos h1.symm]

/-- Witness for C10: registers (7, 9, 3), base pointer at address 0, size
pointer NULL, enable pointer at address 2; address 5 is untouched,
address 0 receives 7, address 2 receives 3 & 1 = 1. -/
theorem get_config_null_safe_witness :
    ((none : Option Nat) ≠ some (5 : Nat)) ∧
    smz_get_config ⟨⟨7, 9, 3⟩, []⟩ (fun _ => 0) (some 0) none (some 2) 5 = 0 ∧
    smz_get_config ⟨⟨7, 9, 3⟩, []⟩ (fun _ => 0) (some 0) none (some 2) 0 = 7 ∧
    smz_get_config ⟨⟨7, 9, 3⟩, []⟩ (fun _ => 0) (some 0) none (some 2) 2 = 1 :=
  ⟨by decide,
    (get_config_null_safe ⟨⟨7, 9, 3⟩, []⟩ (fun _ => 0) (some 0) none
        (some 2)).1 5 (by decide) (by decide) (by decide),
    (get_config_null_safe ⟨⟨7, 9, 3⟩, []⟩ (fun _ => 0) (some 0) none
        (some 2)).2.1 0 rfl (by decide) (by decide),
    (get_config_null_safe ⟨⟨7, 9, 3⟩, []⟩ (fun _ => 0) (some 0) none
        (some 2)).2.2.2 2 rfl⟩

end SMZ
